import Mathlib

set_option maxHeartbeats 1000000
set_option maxRecDepth 4000

/-!
Verification development for the BookBuddy RAG core.

The definitions below are a shallow embedding of the Python sources:
`src/text_processor.py`, `src/vector_store.py`, `src/embeddings.py`,
`src/ollama_client.py` and `src/rag_engine.py`.  Strings are modelled as
`List Char`, Python integers as `Int` (or `Nat` where the source value is
a count), exceptions as `Except`, and the external collaborators
(sentence-transformers embeddings, the ChromaDB query engine, the Ollama
HTTP backend) as explicit oracle parameters.  `while` loops are modelled
with an explicit fuel argument: `none` means the loop did not finish
within the given fuel.
-/

namespace BookBuddy

/-- The whitespace class matched by the regex `\s` in `text_processor.py`
(ASCII part: space, tab, newline, carriage return, vertical tab, form feed). -/
def isPyWs (c : Char) : Bool :=
  c = ' ' || c = '\t' || c = '\n' || c = '\r' || c = '\x0b' || c = '\x0c'

/-- The apostrophe character, kept by the filter regex. -/
def apos : Char := Char.ofNat 39

/-- Characters kept by `re.sub(r'[^\w\s.,!?;:\x27"()-]', '', text)` in
`preprocess_text`: word characters (`\w`, modelled as ASCII alphanumeric plus
underscore), whitespace, and the listed punctuation. -/
def keepChar (c : Char) : Bool :=
  c.isAlphanum || c = '_' || isPyWs c ||
  c = '.' || c = ',' || c = '!' || c = '?' || c = ';' || c = ':' ||
  c = apos || c = '"' || c = '(' || c = ')' || c = '-'

/-- `re.sub(r'\s+', ' ', text)`: every maximal run of whitespace becomes a
single space. -/
def collapseWs : List Char → List Char
  | [] => []
  | [c] => if isPyWs c then [' '] else [c]
  | c1 :: c2 :: rest =>
    if isPyWs c1 && isPyWs c2 then collapseWs (c2 :: rest)
    else (if isPyWs c1 then ' ' else c1) :: collapseWs (c2 :: rest)

/-- `text.replace('\r\n', '\n')` (left-to-right, non-overlapping). -/
def replaceCRLF : List Char → List Char
  | [] => []
  | [c] => [c]
  | c1 :: c2 :: rest =>
    if c1 = '\r' ∧ c2 = '\n' then '\n' :: replaceCRLF rest
    else c1 :: replaceCRLF (c2 :: rest)

/-- `text.replace('\r', '\n')`. -/
def replaceCR (l : List Char) : List Char :=
  l.map (fun c => if c = '\r' then '\n' else c)

/-- Remove trailing whitespace. -/
def dropTrailingWs (l : List Char) : List Char :=
  (l.reverse.dropWhile isPyWs).reverse

/-- Python `str.strip()`: remove leading and trailing whitespace. -/
def pyStrip (l : List Char) : List Char :=
  dropTrailingWs (l.dropWhile isPyWs)

/-- `preprocess_text` from `src/text_processor.py`: collapse whitespace,
filter the character set, normalise line breaks, strip. -/
def preprocess_text (l : List Char) : List Char :=
  pyStrip (replaceCR (replaceCRLF ((collapseWs l).filter keepChar)))

/-- Python `str.rfind(pat)`: index of the rightmost occurrence of `pat`,
`none` when absent (Python returns `-1`). -/
def pyRfind (l pat : List Char) : Option Nat :=
  ((List.range (l.length + 1)).reverse).find? (fun i => pat.isPrefixOf (l.drop i))

/-- Normalise a (possibly negative) Python slice index against a length. -/
def normIdx (len : Nat) (i : Int) : Nat :=
  if i < 0 then ((len : Int) + i).toNat else min i.toNat len

/-- Python slicing `l[a:b]` with Python index semantics (negative indices
count from the end, everything is clamped into range). -/
def pySlice (l : List Char) (a b : Int) : List Char :=
  let la := normIdx l.length a
  let lb := normIdx l.length b
  (l.drop la).take (lb - la)

/-- The sentence-ending delimiters searched by `chunk_text`, in loop order. -/
def sentencePatterns : List (List Char) := [['.', ' '], ['!', ' '], ['?', ' '], ['\n']]

/-- The `best_break` computation of `chunk_text`: rightmost delimiter
occurrence inside the search window, reported as a position in the full text
(`search_start + pos + len(pattern)`). -/
def bestBreakFor (searchText : List Char) (searchStart : Int) : Option Int :=
  sentencePatterns.foldl
    (fun best pat =>
      match pyRfind searchText pat with
      | none => best
      | some pos =>
        let actual : Int := searchStart + pos + pat.length
        match best with
        | none => some actual
        | some b => if actual > b then some actual else best)
    none

/-- The boundary (`end`) computation of one `chunk_text` iteration: the raw
window end `start + chunk_size`, possibly moved to just past the rightmost
sentence delimiter found in the `±100` neighbourhood. -/
def chunkEnd (t : List Char) (csize : Nat) (start : Int) : Int :=
  if start + (csize : Int) < (t.length : Int) then
    match bestBreakFor
        (pySlice t (max (start + (csize : Int) - 100) start)
          (min (start + (csize : Int) + 100) (t.length : Int)))
        (max (start + (csize : Int) - 100) start) with
    | some b => if b ≠ 0 ∧ b > start then b else start + (csize : Int)
    | none => start + (csize : Int)
  else start + (csize : Int)

/-- One-per-iteration embedding of the `while start < text_length` loop of
`chunk_text`, with fuel; `none` means the loop did not terminate within
`fuel` iterations. -/
def chunkLoop (t : List Char) (csize covl : Nat) :
    Nat → Int → List (List Char) → Option (List (List Char))
  | 0, _, _ => none
  | fuel + 1, start, chunks =>
    if start < (t.length : Int) then
      let endPos : Int := chunkEnd t csize start
      let chunk := pyStrip (pySlice t start endPos)
      let chunks2 := if chunk.isEmpty then chunks else chunks ++ [chunk]
      let start2 : Int := endPos - (covl : Int)
      if start2 ≥ (t.length : Int) then some chunks2
      else chunkLoop t csize covl fuel start2 chunks2
    else some chunks

/-- `chunk_text` from `src/text_processor.py` (fuel-based). -/
def chunk_text (text : List Char) (csize covl : Nat) (fuel : Nat) :
    Option (List (List Char)) :=
  if text.isEmpty then some []
  else chunkLoop (preprocess_text text) csize covl fuel 0 []

/-! ### Vector store (`src/vector_store.py`)

The ChromaDB client state is modelled as an association list from collection
names to entry lists, in creation order.  Embedding generation
(`src/embeddings.py`, an external sentence-transformers model) and the
ChromaDB nearest-neighbour query are oracle parameters; embedding vectors are
opaque payloads (`List Int`). -/

/-- Chunk metadata as built by `create_chunks_with_metadata`. -/
structure Meta where
  source : String
  chunk_index : Nat
  total_chunks : Nat
deriving DecidableEq

/-- A chunk dict with `text` and `metadata` keys. -/
structure Chunk where
  text : String
  metadata : Meta
deriving DecidableEq

/-- One stored (id, embedding, document, metadata) record of a collection. -/
structure Entry where
  id : String
  embedding : List Int
  document : String
  metadata : Meta
deriving DecidableEq

/-- The ChromaDB client state: collections in creation order. -/
abbrev Store := List (String × List Entry)

/-- The collection-name sanitisation of `get_or_create_collection` and
`delete_book`: non-alphanumeric characters become underscore, then the name
is truncated to 50 characters. -/
def sanitizeName (book : String) : String :=
  String.mk ((book.data.map (fun c => if c.isAlphanum then c else '_')).take 50)

/-- `get_or_create_collection`: returns the (possibly extended) store and the
sanitised collection name. -/
def get_or_create_collection (st : Store) (book : String) : Store × String :=
  let safe := sanitizeName book
  match st.lookup safe with
  | some _ => (st, safe)
  | none => (st ++ [(safe, [])], safe)

/-- `collection.count()`. -/
def collectionCount (st : Store) (name : String) : Nat :=
  ((st.lookup name).getD []).length

/-- The entries of a collection (empty when the collection is unknown). -/
def getEntries (st : Store) (name : String) : List Entry :=
  (st.lookup name).getD []

/-- Replace the entries of collection `name`. -/
def setEntries (st : Store) (name : String) (es : List Entry) : Store :=
  st.map (fun p => if p.1 = name then (p.1, es) else p)

/-- `collection.delete(where={})`: drop every document of the collection. -/
def clearCollection (st : Store) (name : String) : Store :=
  setEntries st name []

/-- `collection.add(...)` for one batch: append the batch entries. -/
def appendEntries (st : Store) (name : String) (es : List Entry) : Store :=
  st.map (fun p => if p.1 = name then (p.1, p.2 ++ es) else p)

/-- The `for i in range(0, len(chunks), batch_size)` insertion loop of
`add_documents` with `batch_size = 100`. -/
def batchLoop (name : String) : Store → List Entry → Store
  | st, [] => st
  | st, e :: rest =>
    batchLoop name (appendEntries st name ((e :: rest).take 100)) ((e :: rest).drop 100)
termination_by _st es => es.length
decreasing_by simp; omega

/-- `add_documents` from `src/vector_store.py`.  `emb` is the
`EmbeddingGenerator.embed_texts` oracle (`src/embeddings.py`); a raised
exception is `Except.error`, and the store component of the result is the
client state when the call returns or raises. -/
def add_documents (emb : List String → Except Unit (List (List Int)))
    (st : Store) (chunks : List Chunk) (book : String) : Store × Except Unit Nat :=
  let res := get_or_create_collection st book
  let st1 := res.1
  let safe := res.2
  let existing := collectionCount st1 safe
  let st2 := if existing > 0 then clearCollection st1 safe else st1
  let texts := chunks.map (fun c => c.text)
  match emb texts with
  | Except.error e => (st2, Except.error e)
  | Except.ok embeddings =>
    let ids := (List.range chunks.length).map (fun i => book ++ "_" ++ toString i)
    let metadatas := chunks.map (fun c => c.metadata)
    let entries := (ids.zip (embeddings.zip (texts.zip metadatas))).map
      (fun p => Entry.mk p.1 p.2.1 p.2.2.1 p.2.2.2)
    (batchLoop safe st2 entries, Except.ok chunks.length)

/-- One formatted result of `similarity_search`. -/
structure SearchResult where
  text : String
  metadata : Meta
  distance : Int
deriving DecidableEq

/-- `similarity_search` from `src/vector_store.py`.  `embq` is the
`embed_text` oracle and `chromaQuery` the ChromaDB `collection.query`
nearest-neighbour oracle (given the entries, the query embedding and
`n_results`, it returns documents with metadata and distance). -/
def similarity_search (embq : String → Except Unit (List Int))
    (chromaQuery : List Entry → List Int → Nat → List (String × Meta × Int))
    (st : Store) (query book : String) (nResults : Nat) :
    Store × Except Unit (List SearchResult) :=
  let res := get_or_create_collection st book
  let st1 := res.1
  let safe := res.2
  if collectionCount st1 safe = 0 then (st1, Except.ok [])
  else
    match embq query with
    | Except.error e => (st1, Except.error e)
    | Except.ok qe =>
      let raw := chromaQuery (getEntries st1 safe) qe (min nResults (collectionCount st1 safe))
      (st1, Except.ok (raw.map (fun r => SearchResult.mk r.1 r.2.1 r.2.2)))

/-- `list_books`: the names of all collections. -/
def list_books (st : Store) : List String := st.map (fun p => p.1)

/-- Modelled from the ChromaDB client API: `client.delete_collection(name)`
removes the collection, and raises (`ValueError`) when no collection of that
name exists. -/
def chromaDeleteCollection (st : Store) (name : String) : Except Unit Store :=
  match st.lookup name with
  | some _ => Except.ok (st.filter (fun p => p.1 ≠ name))
  | none => Except.error ()

/-- `delete_book` from `src/vector_store.py`: sanitise the name, try the
client delete, and turn any exception into `false`. -/
def delete_book (st : Store) (book : String) : Store × Bool :=
  let safe := sanitizeName book
  match chromaDeleteCollection st safe with
  | Except.ok st2 => (st2, true)
  | Except.error _ => (st, false)

/-! ### Ollama client (`src/ollama_client.py`) -/

/-- A chat message dict with `role` and `content`. -/
structure Message where
  role : String
  content : String
deriving DecidableEq

/-- Observable behaviour of the streaming HTTP response for one request:
the `content` fields decoded from the received lines, and whether a
`RequestException` ends the transfer (unreachable backend = no contents and
`fails = true`). -/
structure StreamBehavior where
  contents : List String
  fails : Bool

/-- `OllamaClient.chat_stream`: relay each non-empty `content` as it
arrives; a transport failure is re-raised as `ConnectionError`
(`Except.error`) after the fragments already yielded. -/
def chat_stream (backend : String → List Message → StreamBehavior)
    (model : String) (messages : List Message) : List String × Except Unit Unit :=
  let b := backend model messages
  (b.contents.filter (fun c => c ≠ ""), if b.fails then Except.error () else Except.ok ())

/-! ### RAG engine (`src/rag_engine.py`) -/

/-- `SYSTEM_PROMPT` up to the `{context}` placeholder. -/
def SYSTEM_PROMPT_PRE : String :=
  "You are a helpful book discussion assistant. Your role is to help users understand and discuss the book they are reading.\n\nIMPORTANT RULES:\n1. ONLY use information from the provided context passages below. Do not use your general knowledge about the book.\n2. If the context doesn\x27t contain enough information to answer the question, say so clearly.\n3. NEVER reveal plot points, character fates, or events that are NOT in the provided context. This prevents spoilers.\n4. When discussing characters, only mention what is known from the provided passages.\n5. Be engaging and help the reader explore themes, characters, and ideas from the text.\n6. If asked about something not in the context, politely explain that you can only discuss what\x27s in the current reading.\n\nCONTEXT FROM THE BOOK:\n"

/-- `SYSTEM_PROMPT` after the `{context}` placeholder. -/
def SYSTEM_PROMPT_SUF : String :=
  "\n\nRemember: Stay grounded in the provided context. Do not spoil anything beyond what\x27s shown above."

/-- `SYSTEM_PROMPT.format(context=context)`. -/
def systemPromptFor (context : String) : String :=
  SYSTEM_PROMPT_PRE ++ context ++ SYSTEM_PROMPT_SUF

/-- The fixed guidance answer when no book is loaded. -/
def guidanceMsg : String := "Please upload a book first before asking questions."

/-- The placeholder context when retrieval finds nothing. -/
def noPassagesMsg : String := "No relevant passages found in the book."

/-- The orchestrator state: the store of its vector store, and
`current_book`. -/
structure Engine where
  store : Store
  currentBook : Option String

/-- External calls made by the engine, for the frame-condition claims:
retrieval (`similarity_search`) and generation (`chat` / `chat_stream`). -/
inductive CallEvent where
  | search : String → String → Nat → CallEvent
  | chat : String → List Message → CallEvent
  | chatStream : String → List Message → CallEvent
deriving DecidableEq

/-- Python truthiness of `not self.current_book`. -/
def noBookSet : Option String → Bool
  | none => true
  | some s => s = ""

/-- The passage formatting of `_build_context`. -/
def formatContext (chunks : List SearchResult) : String :=
  String.intercalate "\n\n"
    ((chunks.enum).map (fun p => "[Passage " ++ toString (p.1 + 1) ++ "]\n" ++ p.2.text))

/-- `RAGEngine._build_context`: retrieve and format the context.  Returns the
store after the call, the context string (or the propagated retrieval
exception), and the external calls made. -/
def build_context (embq : String → Except Unit (List Int))
    (chromaQuery : List Entry → List Int → Nat → List (String × Meta × Int))
    (st : Store) (currentBook : Option String) (query : String) (nChunks : Nat) :
    Store × Except Unit String × List CallEvent :=
  if noBookSet currentBook then (st, Except.ok "", [])
  else
    let book := currentBook.getD ""
    let res := similarity_search embq chromaQuery st query book nChunks
    let evs := [CallEvent.search book query nChunks]
    match res.2 with
    | Except.error e => (res.1, Except.error e, evs)
    | Except.ok chunks =>
      if chunks.isEmpty then (res.1, Except.ok noPassagesMsg, evs)
      else (res.1, Except.ok (formatContext chunks), evs)

/-- `RAGEngine._build_messages`: system message, then the last 20 history
messages, then the question as the final user message. -/
def build_messages (query : String) (chatHistory : List Message) (context : String) :
    List Message :=
  let systemMessage : Message := ⟨"system", systemPromptFor context⟩
  let recentHistory :=
    if chatHistory.isEmpty then [] else chatHistory.drop (chatHistory.length - 20)
  systemMessage :: (recentHistory ++ [⟨"user", query⟩])

/-- `RAGEngine.query`.  `chatFn` is the `OllamaClient.chat` oracle
(`Except.error` = raised `ConnectionError`).  Returns the answer (or the
propagated exception), the store after the call, and the external calls
made. -/
def query (embq : String → Except Unit (List Int))
    (chromaQuery : List Entry → List Int → Nat → List (String × Meta × Int))
    (chatFn : String → List Message → Except Unit String)
    (eng : Engine) (question model : String) (chatHistory : List Message)
    (nChunks : Nat) : Except Unit String × Store × List CallEvent :=
  if noBookSet eng.currentBook then (Except.ok guidanceMsg, eng.store, [])
  else
    let ctx := build_context embq chromaQuery eng.store eng.currentBook question nChunks
    match ctx.2.1 with
    | Except.error e => (Except.error e, ctx.1, ctx.2.2)
    | Except.ok context =>
      let messages := build_messages question chatHistory context
      match chatFn model messages with
      | Except.error e => (Except.error e, ctx.1, ctx.2.2 ++ [CallEvent.chat model messages])
      | Except.ok resp => (Except.ok resp, ctx.1, ctx.2.2 ++ [CallEvent.chat model messages])

/-- `RAGEngine.query_stream`.  Returns the fragments yielded to the caller,
the final outcome (`Except.error` = an exception escapes to the caller after
those fragments), the store after the call, and the external calls made. -/
def query_stream (embq : String → Except Unit (List Int))
    (chromaQuery : List Entry → List Int → Nat → List (String × Meta × Int))
    (backend : String → List Message → StreamBehavior)
    (eng : Engine) (question model : String) (chatHistory : List Message)
    (nChunks : Nat) : List String × Except Unit Unit × Store × List CallEvent :=
  if noBookSet eng.currentBook then ([guidanceMsg], Except.ok (), eng.store, [])
  else
    let ctx := build_context embq chromaQuery eng.store eng.currentBook question nChunks
    match ctx.2.1 with
    | Except.error _ => ([], Except.error (), ctx.1, ctx.2.2)
    | Except.ok context =>
      let messages := build_messages question chatHistory context
      let sres := chat_stream backend model messages
      (sres.1, sres.2, ctx.1, ctx.2.2 ++ [CallEvent.chatStream model messages])

/-! ### Helper lemmas -/

theorem lookup_append {α β : Type} [BEq α] (l1 l2 : List (α × β)) (k : α)
    (h : l1.lookup k = none) : (l1 ++ l2).lookup k = l2.lookup k := by
  induction l1 with
  | nil => rfl
  | cons p rest ih =>
    rw [List.cons_append]
    rw [List.lookup] at h ⊢
    cases hb : (k == p.1) with
    | true => rw [hb] at h; exact absurd h (by simp)
    | false => rw [hb] at h; exact ih h

theorem lookup_none_not_mem {α β : Type} [BEq α] [LawfulBEq α]
    (l : List (α × β)) (k : α) (h : l.lookup k = none) :
    k ∉ l.map (fun p => p.1) := by
  induction l with
  | nil => simp
  | cons p rest ih =>
    rw [List.lookup] at h
    simp only [List.map_cons, List.mem_cons]
    cases hb : (k == p.1) with
    | true => rw [hb] at h; exact absurd h (by simp)
    | false =>
      rw [hb] at h
      rintro (h1 | h2)
      · rw [h1] at hb; simp at hb
      · exact ih h h2

/-! ### Claim theorems -/

/-- C1 (code bug): `add_documents` deletes the existing collection contents
before generating embeddings, so when embedding generation raises, the
previously indexed collection for the book has already been emptied — the
failure does not leave the previous index intact.  Here the store holds one
good entry for book `book` before the call, and after the failing call
(`Except.error`) the collection is empty. -/
theorem add_documents_embed_failure_clears_previous_index :
    add_documents (fun _ => Except.error ())
        [("book", [Entry.mk "book_0" [1] "old text" (Meta.mk "book" 0 1)])]
        [Chunk.mk "new text" (Meta.mk "book" 0 1)] "book" =
      ([("book", [])], Except.error ()) ∧
    getEntries [("book", [Entry.mk "book_0" [1] "old text" (Meta.mk "book" 0 1)])] "book" =
      [Entry.mk "book_0" [1] "old text" (Meta.mk "book" 0 1)] := by
  exact ⟨rfl, rfl⟩

/-- C4 counterexample: deleting the book `"x"` on a store with no collections
returns `false`, not the success flag `true` the claim states. -/
theorem delete_book_missing_returns_false :
    (delete_book ([] : Store) "x").2 ≠ true := by decide

/-- C4 (amended): `delete_book` returns `true` exactly when the sanitised
collection exists (and then removes it); a missing collection yields `false`
with the store unchanged. -/
theorem delete_book_success_iff_collection_exists (st : Store) (book : String) :
    delete_book st book =
      (match st.lookup (sanitizeName book) with
       | some _ => (st.filter (fun p => p.1 ≠ sanitizeName book), true)
       | none => (st, false)) := by
  unfold delete_book chromaDeleteCollection
  cases h : st.lookup (sanitizeName book) <;> simp [h]

/-- C6: with no current book set, `query` returns exactly the fixed guidance
message and `query_stream` yields only that message; in both cases the store
is untouched and no external call (retrieval or generation) is made, for
every choice of oracles, question, model and history. -/
theorem query_no_book_guidance_no_calls
    (embq : String → Except Unit (List Int))
    (chromaQuery : List Entry → List Int → Nat → List (String × Meta × Int))
    (chatFn : String → List Message → Except Unit String)
    (backend : String → List Message → StreamBehavior)
    (eng : Engine) (hb : eng.currentBook = none)
    (question model : String) (hist : List Message) (n : Nat) :
    query embq chromaQuery chatFn eng question model hist n =
      (Except.ok guidanceMsg, eng.store, []) ∧
    query_stream embq chromaQuery backend eng question model hist n =
      ([guidanceMsg], Except.ok (), eng.store, []) := by
  unfold query query_stream
  rw [hb]
  exact ⟨rfl, rfl⟩

/-- Closed witness for the C6 theorem at a concrete engine and oracles. -/
theorem query_no_book_guidance_no_calls_witness :
    (Engine.mk [] none).currentBook = none ∧
    (query (fun _ => Except.ok []) (fun _ _ _ => []) (fun _ _ => Except.ok "hi")
        (Engine.mk [] none) "who is Bob?" "llama" [] 5 =
      (Except.ok guidanceMsg, [], []) ∧
    query_stream (fun _ => Except.ok []) (fun _ _ _ => []) (fun _ _ => StreamBehavior.mk ["x"] false)
        (Engine.mk [] none) "who is Bob?" "llama" [] 5 =
      ([guidanceMsg], Except.ok (), [], [])) :=
  ⟨rfl, query_no_book_guidance_no_calls _ _ _ _ _ rfl _ _ _ _⟩

/-- C7: `_build_messages` produces the grounding system message first, then
exactly the last `min (length h) 20` history messages as a contiguous,
order-preserving suffix of the history, then the question as the final user
message. -/
theorem build_messages_structure (q : String) (h : List Message) (ctx : String) :
    build_messages q h ctx =
      Message.mk "system" (systemPromptFor ctx) ::
        (h.drop (h.length - 20) ++ [Message.mk "user" q]) ∧
    (h.drop (h.length - 20)).length = min h.length 20 ∧
    List.IsSuffix (h.drop (h.length - 20)) h := by
  refine ⟨?_, ?_, List.drop_suffix _ _⟩
  · unfold build_messages
    cases h with
    | nil => simp
    | cons a t => simp
  · rw [List.length_drop]; omega

/-- C5: for every query and book whose collection is empty or was never
created (unknown book), `similarity_search` returns the empty result list and
raises no error, whatever the embedding and query oracles do. -/
theorem similarity_search_empty_or_unknown_ok_nil
    (embq : String → Except Unit (List Int))
    (chromaQuery : List Entry → List Int → Nat → List (String × Meta × Int))
    (st : Store) (q book : String) (n : Nat)
    (h : getEntries st (sanitizeName book) = []) :
    (similarity_search embq chromaQuery st q book n).2 = Except.ok [] := by
  unfold similarity_search get_or_create_collection
  cases hl : st.lookup (sanitizeName book) with
  | none =>
    have hc : (st ++ [(sanitizeName book, [])]).lookup (sanitizeName book) = some [] := by
      rw [lookup_append st [(sanitizeName book, [])] (sanitizeName book) hl]
      simp [List.lookup]
    simp only [hl, collectionCount, hc]
    rfl
  | some es =>
    have hes : es = [] := by
      unfold getEntries at h
      rw [hl] at h
      simpa using h
    simp only [hl, collectionCount, hes]
    rfl

/-- Closed witness for the C5 theorem: searching the never-populated book
`"My Book!"` on an empty store returns `Except.ok []`. -/
theorem similarity_search_empty_or_unknown_ok_nil_witness :
    getEntries ([] : Store) (sanitizeName "My Book!") = [] ∧
    (similarity_search (fun _ => Except.error ()) (fun _ _ _ => [])
        ([] : Store) "what happens?" "My Book!" 5).2 = Except.ok [] :=
  ⟨rfl, similarity_search_empty_or_unknown_ok_nil _ _ _ _ _ _ rfl⟩

/-- C9: `similarity_search` on a book whose sanitised collection does not yet
exist creates an empty collection as a side effect: the sanitised name
appears in `list_books` of the store returned by the search, although it was
not in `list_books` before. -/
theorem similarity_search_creates_collection
    (embq : String → Except Unit (List Int))
    (chromaQuery : List Entry → List Int → Nat → List (String × Meta × Int))
    (st : Store) (q book : String) (n : Nat)
    (h : st.lookup (sanitizeName book) = none) :
    sanitizeName book ∈ list_books (similarity_search embq chromaQuery st q book n).1 ∧
    sanitizeName book ∉ list_books st := by
  constructor
  · unfold similarity_search get_or_create_collection
    have hc : (st ++ [(sanitizeName book, [])]).lookup (sanitizeName book) = some [] := by
      rw [lookup_append st [(sanitizeName book, [])] (sanitizeName book) h]
      simp [List.lookup]
    simp only [h, collectionCount, hc]
    unfold list_books
    simp
  · exact lookup_none_not_mem st (sanitizeName book) h

/-- Closed witness for the C9 theorem: searching book `"My Book!"` on an
empty store makes `"My_Book_"` appear in `list_books`. -/
theorem similarity_search_creates_collection_witness :
    (([] : Store).lookup (sanitizeName "My Book!") = none) ∧
    (sanitizeName "My Book!" ∈ list_books
        (similarity_search (fun _ => Except.ok []) (fun _ _ _ => [])
          ([] : Store) "q" "My Book!" 3).1 ∧
      sanitizeName "My Book!" ∉ list_books ([] : Store)) :=
  ⟨rfl, similarity_search_creates_collection _ _ _ _ _ _ rfl⟩

/-- C3 counterexample: with book `"b"` set and a backend that is unreachable
(no fragments, transport failure), `query_stream` yields no fragment at all
and lets the exception escape — it does not surface a synthetic terminal
answer fragment describing the failure. -/
theorem query_stream_backend_failure_raises :
    query_stream (fun _ => Except.ok []) (fun _ _ _ => [])
        (fun _ _ => StreamBehavior.mk [] true)
        (Engine.mk [] (some "b")) "q" "m" [] 5 =
      ([], Except.error (), [("b", [])],
        [CallEvent.search "b" "q" 5,
         CallEvent.chatStream "m" (build_messages "q" [] noPassagesMsg)]) := by
  rfl

/-- C3 (amended): `query_stream` does not catch generation failures.  When a
book is set and context retrieval succeeds, it relays exactly the non-empty
fragments of the backend stream, in order, and a transport failure escapes to
the caller as an exception after those fragments; no synthetic failure
fragment is appended (the "Sorry, an error occurred" message is produced by
the UI caller in `app.py`, not by the orchestrator). -/
theorem query_stream_relays_and_propagates
    (embq : String → Except Unit (List Int))
    (chromaQuery : List Entry → List Int → Nat → List (String × Meta × Int))
    (backend : String → List Message → StreamBehavior)
    (eng : Engine) (question model : String) (hist : List Message) (n : Nat)
    (ctxStr : String)
    (hb : noBookSet eng.currentBook = false)
    (hok : (build_context embq chromaQuery eng.store eng.currentBook question n).2.1 =
      Except.ok ctxStr) :
    (query_stream embq chromaQuery backend eng question model hist n).1 =
      (backend model (build_messages question hist ctxStr)).contents.filter
        (fun c => c ≠ "") ∧
    (query_stream embq chromaQuery backend eng question model hist n).2.1 =
      (if (backend model (build_messages question hist ctxStr)).fails
        then Except.error () else Except.ok ()) := by
  unfold query_stream
  rw [hb]
  simp only [Bool.false_eq_true, if_false, hok]
  exact ⟨rfl, rfl⟩

/-- Closed witness for the C3 amended theorem at a concrete engine and a
backend that streams two fragments and then fails. -/
theorem query_stream_relays_and_propagates_witness :
    (noBookSet (Engine.mk [] (some "b")).currentBook = false ∧
      (build_context (fun _ => Except.ok []) (fun _ _ _ => [])
          (Engine.mk [] (some "b")).store (Engine.mk [] (some "b")).currentBook "q" 5).2.1 =
        Except.ok noPassagesMsg) ∧
    ((query_stream (fun _ => Except.ok []) (fun _ _ _ => [])
        (fun _ _ => StreamBehavior.mk ["The ", "cat "] true)
        (Engine.mk [] (some "b")) "q" "m" [] 5).1 =
      (["The ", "cat "] : List String).filter (fun c => c ≠ "") ∧
    (query_stream (fun _ => Except.ok []) (fun _ _ _ => [])
        (fun _ _ => StreamBehavior.mk ["The ", "cat "] true)
        (Engine.mk [] (some "b")) "q" "m" [] 5).2.1 =
      (if true then Except.error () else Except.ok ())) :=
  ⟨⟨rfl, rfl⟩,
    query_stream_relays_and_propagates _ _ _ _ _ _ _ _ noPassagesMsg rfl rfl⟩

/-- The preprocessed text of the C2 failing input: twenty letters `a`. -/
def aText : List Char := List.replicate 20 'a'

theorem chunkLoop_a_step (fuel : Nat) (acc : List (List Char)) :
    chunkLoop aText 10 10 (fuel + 1) 0 acc =
      chunkLoop aText 10 10 fuel 0 (acc ++ [List.replicate 10 'a']) := by
  rfl

theorem chunkLoop_a_none (fuel : Nat) : ∀ acc : List (List Char),
    chunkLoop aText 10 10 fuel 0 acc = none := by
  induction fuel with
  | zero => intro acc; rfl
  | succ n ih => intro acc; rw [chunkLoop_a_step]; exact ih _

/-- C2 (code bug): `chunk_text` has no clamp on the overlap, and the start
position `start = end - chunk_overlap` need not advance: on twenty `a`s with
`chunk_size = 10` and `chunk_overlap = 10` the window `[0, 10)` repeats
forever and the loop never terminates (the fuel-indexed loop returns `none`
for every fuel). -/
theorem chunk_text_may_not_terminate (fuel : Nat) :
    chunk_text (List.replicate 20 'a') 10 10 fuel = none := by
  have h : chunk_text (List.replicate 20 'a') 10 10 fuel =
      chunkLoop aText 10 10 fuel 0 [] := rfl
  rw [h]
  exact chunkLoop_a_none fuel []

/-! ### Idempotence analysis of `preprocess_text` (C10) -/

/-- Adjacent characters are not both whitespace. -/
def noTwoWs (a b : Char) : Prop := ¬(isPyWs a = true ∧ isPyWs b = true)

theorem collapseWs_cons (c : Char) (r : List Char) :
    ∃ t, collapseWs (c :: r) = (if isPyWs c then ' ' else c) :: t := by
  induction r generalizing c with
  | nil =>
    refine ⟨[], ?_⟩
    rw [collapseWs]
    split <;> rfl
  | cons c2 r ih =>
    by_cases h : (isPyWs c && isPyWs c2) = true
    · obtain ⟨t, ht⟩ := ih c2
      have hcc : isPyWs c = true ∧ isPyWs c2 = true := by
        rw [Bool.and_eq_true] at h; exact h
      have hc : isPyWs c = true := hcc.1
      have hc2 : isPyWs c2 = true := hcc.2
      refine ⟨t, ?_⟩
      rw [collapseWs, if_pos h, ht, if_pos hc, if_pos hc2]
    · exact ⟨collapseWs (c2 :: r), by rw [collapseWs, if_neg h]⟩

theorem collapseWs_ws_space (l : List Char) :
    ∀ c ∈ collapseWs l, isPyWs c = true → c = ' ' := by
  induction l with
  | nil => intro c hc; rw [collapseWs] at hc; simp at hc
  | cons c1 rest ih =>
    cases rest with
    | nil =>
      intro c hc hw
      rw [collapseWs] at hc
      by_cases h1 : isPyWs c1 = true
      · rw [if_pos h1] at hc; simpa using hc
      · rw [if_neg h1] at hc
        have : c = c1 := by simpa using hc
        rw [this] at hw
        exact absurd hw h1
    | cons c2 r =>
      intro c hc hw
      by_cases h : (isPyWs c1 && isPyWs c2) = true
      · rw [collapseWs, if_pos h] at hc
        exact ih c hc hw
      · rw [collapseWs, if_neg h] at hc
        rcases List.mem_cons.mp hc with h1 | h2
        · by_cases hws : isPyWs c1 = true
          · rw [if_pos hws] at h1; exact h1
          · rw [if_neg hws] at h1; rw [h1] at hw; exact absurd hw hws
        · exact ih c h2 hw

theorem collapseWs_mem (l : List Char) :
    ∀ c ∈ collapseWs l, c ∈ l ∨ c = ' ' := by
  induction l with
  | nil => intro c hc; rw [collapseWs] at hc; simp at hc
  | cons c1 rest ih =>
    cases rest with
    | nil =>
      intro c hc
      rw [collapseWs] at hc
      by_cases h1 : isPyWs c1 = true
      · rw [if_pos h1] at hc; right; simpa using hc
      · rw [if_neg h1] at hc; left; simpa using hc
    | cons c2 r =>
      intro c hc
      by_cases h : (isPyWs c1 && isPyWs c2) = true
      · rw [collapseWs, if_pos h] at hc
        rcases ih c hc with hm | hs
        · exact Or.inl (List.mem_cons_of_mem c1 hm)
        · exact Or.inr hs
      · rw [collapseWs, if_neg h] at hc
        rcases List.mem_cons.mp hc with h1 | h2
        · by_cases hws : isPyWs c1 = true
          · rw [if_pos hws] at h1; exact Or.inr h1
          · rw [if_neg hws] at h1; exact Or.inl (h1 ▸ List.mem_cons_self c1 _)
        · rcases ih c h2 with hm | hs
          · exact Or.inl (List.mem_cons_of_mem c1 hm)
          · exact Or.inr hs

theorem collapseWs_chain (l : List Char) :
    List.Chain' noTwoWs (collapseWs l) := by
  induction l with
  | nil => rw [collapseWs]; exact List.chain'_nil
  | cons c1 rest ih =>
    cases rest with
    | nil =>
      rw [collapseWs]
      by_cases h1 : isPyWs c1 = true
      · rw [if_pos h1]; exact List.chain'_singleton _
      · rw [if_neg h1]; exact List.chain'_singleton _
    | cons c2 r =>
      by_cases h : (isPyWs c1 && isPyWs c2) = true
      · rw [collapseWs, if_pos h]; exact ih
      · rw [collapseWs, if_neg h]
        obtain ⟨t, ht⟩ := collapseWs_cons c2 r
        rw [ht]
        rw [ht] at ih
        rw [List.chain'_cons]
        refine ⟨?_, ih⟩
        intro ⟨hw1, hw2⟩
        have hc1 : isPyWs c1 = true := by
          by_cases hb : isPyWs c1 = true
          · exact hb
          · rw [if_neg hb] at hw1; exact absurd hw1 hb
        have hc2 : isPyWs c2 = true := by
          by_cases hb : isPyWs c2 = true
          · exact hb
          · rw [if_neg hb] at hw2; exact absurd hw2 hb
        rw [Bool.and_eq_true] at h
        exact h ⟨hc1, hc2⟩

theorem collapseWs_eq_self (l : List Char)
    (h1 : ∀ c ∈ l, isPyWs c = true → c = ' ') (h2 : List.Chain' noTwoWs l) :
    collapseWs l = l := by
  induction l with
  | nil => rw [collapseWs]
  | cons c1 rest ih =>
    cases rest with
    | nil =>
      rw [collapseWs]
      by_cases hb : isPyWs c1 = true
      · rw [if_pos hb, h1 c1 (List.mem_cons_self _ _) hb]
      · rw [if_neg hb]
    | cons c2 r =>
      have hR : noTwoWs c1 c2 := (List.chain'_cons.mp h2).1
      have hand : ¬((isPyWs c1 && isPyWs c2) = true) := by
        rw [Bool.and_eq_true]; exact hR
      rw [collapseWs, if_neg hand]
      have htl : collapseWs (c2 :: r) = c2 :: r :=
        ih (fun c hc hw => h1 c (List.mem_cons_of_mem c1 hc) hw) (List.chain'_cons.mp h2).2
      rw [htl]
      by_cases hb : isPyWs c1 = true
      · rw [if_pos hb, h1 c1 (List.mem_cons_self _ _) hb]
      · rw [if_neg hb]

theorem replaceCRLF_eq_self (l : List Char) (h : ∀ c ∈ l, c ≠ '\r') :
    replaceCRLF l = l := by
  induction l with
  | nil => rfl
  | cons c1 rest ih =>
    cases rest with
    | nil => rfl
    | cons c2 r =>
      rw [replaceCRLF, if_neg]
      · rw [ih (fun c hc => h c (List.mem_cons_of_mem c1 hc))]
      · intro ⟨hc1, _⟩
        exact h c1 (List.mem_cons_self _ _) hc1

theorem replaceCR_eq_self (l : List Char) (h : ∀ c ∈ l, c ≠ '\r') :
    replaceCR l = l := by
  unfold replaceCR
  induction l with
  | nil => rfl
  | cons c1 rest ih =>
    rw [List.map_cons, if_neg (h c1 (List.mem_cons_self _ _)),
      ih (fun c hc => h c (List.mem_cons_of_mem c1 hc))]

theorem dropTrailingWs_eq (l : List Char) :
    dropTrailingWs l = List.rdropWhile isPyWs l := rfl

theorem dropWhile_eq_self_of_front {p : Char → Bool} {B y : List Char}
    (hB : B <+: y) (hy : y.dropWhile p = y) : B.dropWhile p = B := by
  cases B with
  | nil => rfl
  | cons c t =>
    obtain ⟨s, hs⟩ := hB
    subst hs
    rw [List.cons_append] at hy
    rw [List.dropWhile_cons] at hy ⊢
    by_cases hc : p c = true
    · rw [if_pos hc] at hy
      have hlen := (List.dropWhile_sublist (l := t ++ s) p).length_le
      rw [hy] at hlen
      simp at hlen
    · rw [if_neg hc]

theorem pyStrip_mem (l : List Char) : ∀ c ∈ pyStrip l, c ∈ l := by
  intro c hc
  unfold pyStrip at hc
  rw [dropTrailingWs_eq] at hc
  have h1 : c ∈ (l.dropWhile isPyWs) :=
    (List.rdropWhile_prefix _ _).sublist.subset hc
  exact (List.dropWhile_sublist _).subset h1

theorem pyStrip_chain (l : List Char) (h : List.Chain' noTwoWs l) :
    List.Chain' noTwoWs (pyStrip l) := by
  unfold pyStrip
  rw [dropTrailingWs_eq]
  have h1 : List.Chain' noTwoWs (l.dropWhile isPyWs) := by
    obtain ⟨a, ha⟩ := List.dropWhile_suffix (l := l) isPyWs
    rw [← ha] at h
    exact h.right_of_append
  obtain ⟨s, hs⟩ := List.rdropWhile_prefix isPyWs (l.dropWhile isPyWs)
  rw [← hs] at h1
  exact h1.left_of_append

theorem pyStrip_idem (l : List Char) : pyStrip (pyStrip l) = pyStrip l := by
  unfold pyStrip
  rw [dropTrailingWs_eq, dropTrailingWs_eq]
  have hA : (l.dropWhile isPyWs).dropWhile isPyWs = l.dropWhile isPyWs :=
    List.dropWhile_idempotent _ _
  have hpre : List.rdropWhile isPyWs (l.dropWhile isPyWs) <+: l.dropWhile isPyWs :=
    List.rdropWhile_prefix _ _
  rw [dropWhile_eq_self_of_front hpre hA]
  exact List.rdropWhile_idempotent _ _

theorem preprocess_shape (s : List Char) :
    preprocess_text s = pyStrip ((collapseWs s).filter keepChar) := by
  unfold preprocess_text
  have hnr : ∀ c ∈ (collapseWs s).filter keepChar, c ≠ '\r' := by
    intro c hc hr
    have hcc : c ∈ collapseWs s := (List.mem_filter.mp hc).1
    have : c = ' ' := collapseWs_ws_space s c hcc (by rw [hr]; rfl)
    rw [hr] at this
    exact absurd this (by decide)
  rw [replaceCRLF_eq_self _ hnr, replaceCR_eq_self _ hnr]

theorem preprocess_ws_space (s : List Char) :
    ∀ c ∈ preprocess_text s, isPyWs c = true → c = ' ' := by
  intro c hc hw
  rw [preprocess_shape] at hc
  have h1 : c ∈ (collapseWs s).filter keepChar := pyStrip_mem _ c hc
  exact collapseWs_ws_space s c (List.mem_filter.mp h1).1 hw

theorem preprocess_keep (s : List Char) :
    ∀ c ∈ preprocess_text s, keepChar c = true := by
  intro c hc
  rw [preprocess_shape] at hc
  exact (List.mem_filter.mp (pyStrip_mem _ c hc)).2

/-- After two applications of `preprocess_text` the result also has no two
adjacent whitespace characters (a single application need not: removing a
character can merge two spaces). -/
theorem preprocess_preprocess_chain (s : List Char) :
    List.Chain' noTwoWs (preprocess_text (preprocess_text s)) := by
  rw [preprocess_shape (preprocess_text s)]
  have hfilter : (collapseWs (preprocess_text s)).filter keepChar =
      collapseWs (preprocess_text s) := by
    rw [List.filter_eq_self]
    intro c hc
    rcases collapseWs_mem _ c hc with hm | hsp
    · exact preprocess_keep s c hm
    · rw [hsp]; rfl
  rw [hfilter]
  exact pyStrip_chain _ (collapseWs_chain _)

/-- C10 counterexample: `preprocess_text` is not idempotent.  On `"a @ b"`
the first pass removes the `@` and leaves the two spaces around it adjacent
(`"a  b"`), and the second pass collapses them (`"a b"`). -/
theorem preprocess_text_not_idempotent :
    preprocess_text (preprocess_text "a @ b".data) ≠
      preprocess_text "a @ b".data := by decide

/-- C10 (amended): two applications of `preprocess_text` reach a fixed point:
`preprocess_text` applied to `preprocess_text (preprocess_text s)` changes
nothing, for every input `s`. -/
theorem preprocess_text_twice_idempotent (s : List Char) :
    preprocess_text (preprocess_text (preprocess_text s)) =
      preprocess_text (preprocess_text s) := by
  have hv := preprocess_preprocess_chain s
  set v := preprocess_text (preprocess_text s) with hvdef
  rw [preprocess_shape v]
  have hcol : collapseWs v = v :=
    collapseWs_eq_self v (fun c hc hw => preprocess_ws_space _ c hc hw) hv
  rw [hcol]
  have hfil : v.filter keepChar = v := by
    rw [List.filter_eq_self]
    intro c hc
    exact preprocess_keep _ c hc
  rw [hfil]
  rw [hvdef, preprocess_shape (preprocess_text s)]
  exact pyStrip_idem _

/-! ### Chunk reconstruction (C8) -/

/-- Delete every whitespace character. -/
def delWs (l : List Char) : List Char := l.filter (fun c => !isPyWs c)

theorem delWs_append (l1 l2 : List Char) : delWs (l1 ++ l2) = delWs l1 ++ delWs l2 := by
  simp [delWs]

theorem delWs_dropWhile (l : List Char) : delWs (l.dropWhile isPyWs) = delWs l := by
  induction l with
  | nil => rfl
  | cons c r ih =>
    rw [List.dropWhile_cons]
    by_cases hp : isPyWs c = true
    · rw [if_pos hp, ih]
      unfold delWs
      rw [List.filter_cons]
      rw [if_neg (by rw [hp]; simp)]
    · rw [if_neg hp]

theorem delWs_reverse (l : List Char) : delWs l.reverse = (delWs l).reverse :=
  List.filter_reverse _ l

theorem delWs_pyStrip (l : List Char) : delWs (pyStrip l) = delWs l := by
  unfold pyStrip dropTrailingWs
  rw [delWs_reverse, delWs_dropWhile, delWs_reverse, List.reverse_reverse,
    delWs_dropWhile]

theorem pySlice_nat (t : List Char) (a b : Nat) :
    pySlice t (a : Int) (b : Int) = (t.drop a).take (b - a) := by
  have hna : ¬((a : Int) < 0) := by omega
  have hnb : ¬((b : Int) < 0) := by omega
  simp only [pySlice, normIdx, if_neg hna, if_neg hnb, Int.toNat_ofNat]
  by_cases ha : a ≤ t.length
  · rw [min_eq_left ha]
    by_cases hb : b ≤ t.length
    · rw [min_eq_left hb]
    · rw [min_eq_right (by omega)]
      have hlen : (t.drop a).length = t.length - a := List.length_drop a t
      rw [List.take_of_length_le (by omega), List.take_of_length_le (by omega)]
  · have hale : t.length ≤ a := by omega
    rw [min_eq_right hale]
    rw [List.drop_eq_nil_of_le (show t.length ≤ t.length from Nat.le_refl _),
      List.drop_eq_nil_of_le (show t.length ≤ a by omega)]
    simp

theorem pySlice_ge_len (t : List Char) (a : Nat) (b : Int)
    (hb : (t.length : Int) ≤ b) : pySlice t (a : Int) b = t.drop a := by
  have hna : ¬((a : Int) < 0) := by omega
  have hnb : ¬(b < 0) := by omega
  simp only [pySlice, normIdx, if_neg hna, if_neg hnb, Int.toNat_ofNat]
  have hble : t.length ≤ b.toNat := by omega
  rw [min_eq_right hble]
  by_cases ha : a ≤ t.length
  · rw [min_eq_left ha]
    have hlen : (t.drop a).length = t.length - a := List.length_drop a t
    rw [List.take_of_length_le (by omega)]
  · have hale : t.length ≤ a := by omega
    rw [min_eq_right hale]
    rw [List.drop_eq_nil_of_le (show t.length ≤ t.length from Nat.le_refl _),
      List.drop_eq_nil_of_le (show t.length ≤ a by omega)]
    simp

theorem take_drop_append_drop (t : List Char) (s e : Nat) (h : s ≤ e) :
    (t.drop s).take (e - s) ++ t.drop e = t.drop s := by
  have hd : t.drop e = (t.drop s).drop (e - s) := by
    rw [List.drop_drop]
    congr 1
    omega
  rw [hd, List.take_append_drop]

/-- With `1 ≤ chunk_size` every iteration moves the boundary strictly past
the current start: the raw end is `start + chunk_size`, and a sentence break
is only accepted when it lies strictly after `start`. -/
theorem lt_chunkEnd (t : List Char) (csize : Nat) (hcs : 1 ≤ csize)
    (start : Int) : start < chunkEnd t csize start := by
  unfold chunkEnd
  split
  · split
    · rename_i b
      split
      · rename_i hb
        exact hb.2
      · omega
    · omega
  · omega

/-- Loop invariant for `chunk_text` with zero overlap: the run terminates and,
up to whitespace, the emitted chunks concatenate to the unconsumed text. -/
theorem chunkLoop_zero_overlap (t : List Char) (csize : Nat) (hcs : 1 ≤ csize) :
    ∀ (fuel start : Nat) (acc : List (List Char)),
      t.length ≤ start + fuel →
      ∃ out, chunkLoop t csize 0 (fuel + 1) (start : Int) acc = some out ∧
        delWs out.flatten = delWs acc.flatten ++ delWs (t.drop start) ∧
        ((∀ c ∈ acc, c ≠ []) → ∀ c ∈ out, c ≠ []) := by
  intro fuel
  induction fuel with
  | zero =>
    intro start acc hn
    refine ⟨acc, ?_, ?_, fun h => h⟩
    · rw [chunkLoop, if_neg (by exact_mod_cast Nat.not_lt.mpr (by omega))]
    · rw [List.drop_eq_nil_of_le (by omega)]
      simp [delWs]
  | succ fuel ih =>
    intro start acc hn
    by_cases hlt : start < t.length
    case neg =>
      refine ⟨acc, ?_, ?_, fun h => h⟩
      · rw [chunkLoop, if_neg (by exact_mod_cast hlt)]
      · rw [List.drop_eq_nil_of_le (by omega)]
        simp [delWs]
    case pos =>
      have hend : (start : Int) < chunkEnd t csize (start : Int) :=
        lt_chunkEnd t csize hcs _
      have he0 : 0 ≤ chunkEnd t csize (start : Int) := by omega
      set e : Int := chunkEnd t csize (start : Int) with he
      set en : Nat := e.toNat with hen
      have hene : (en : Int) = e := Int.toNat_of_nonneg he0
      have hsen : start < en := by omega
      have hloop : chunkLoop t csize 0 (fuel + 1 + 1) (start : Int) acc =
          (if e - ((0 : Nat) : Int) ≥ (t.length : Int)
            then some (if (pyStrip (pySlice t (start : Int) e)).isEmpty then acc
              else acc ++ [pyStrip (pySlice t (start : Int) e)])
            else chunkLoop t csize 0 (fuel + 1) (e - ((0 : Nat) : Int))
              (if (pyStrip (pySlice t (start : Int) e)).isEmpty then acc
                else acc ++ [pyStrip (pySlice t (start : Int) e)])) := by
        rw [chunkLoop, if_pos (by exact_mod_cast hlt)]
      set chunk := pyStrip (pySlice t (start : Int) e) with hchunk
      set acc2 := if chunk.isEmpty then acc else acc ++ [chunk] with hacc2
      have hz : e - ((0 : Nat) : Int) = e := by omega
      rw [hz] at hloop
      have hni2 : (∀ c ∈ acc, c ≠ []) → ∀ c ∈ acc2, c ≠ [] := by
        intro h c hc
        rw [hacc2] at hc
        by_cases hce : chunk.isEmpty = true
        · rw [if_pos hce] at hc; exact h c hc
        · rw [if_neg hce] at hc
          rcases List.mem_append.mp hc with hm | hm
          · exact h c hm
          · have : c = chunk := by simpa using hm
            rw [this]
            intro hnil
            rw [hnil] at hce
            exact hce rfl
      by_cases hge : (t.length : Int) ≤ e
      · -- last iteration: the loop breaks
        have hdelchunk : delWs chunk = delWs (t.drop start) := by
          rw [hchunk, delWs_pyStrip, pySlice_ge_len t start e hge]
        have hdel2 : delWs acc2.flatten = delWs acc.flatten ++ delWs (t.drop start) := by
          rw [hacc2]
          by_cases hce : chunk.isEmpty = true
          · rw [if_pos hce]
            have : chunk = [] := by simpa using hce
            rw [this] at hdelchunk
            rw [← hdelchunk]
            simp [delWs]
          · rw [if_neg hce, List.flatten_append, delWs_append, ← hdelchunk]
            simp [delWs]
        refine ⟨acc2, ?_, hdel2, hni2⟩
        rw [hloop, if_pos (by omega)]
      · -- the loop continues at the new start position `e`
        obtain ⟨out, hout, hdel, hni⟩ := ih en acc2 (by omega)
        have hdelchunk : delWs chunk = delWs ((t.drop start).take (en - start)) := by
          rw [hchunk, delWs_pyStrip, ← hene, pySlice_nat]
        have hdel2 : delWs acc2.flatten =
            delWs acc.flatten ++ delWs ((t.drop start).take (en - start)) := by
          rw [hacc2]
          by_cases hce : chunk.isEmpty = true
          · rw [if_pos hce]
            have : chunk = [] := by simpa using hce
            rw [this] at hdelchunk
            rw [← hdelchunk]
            simp [delWs]
          · rw [if_neg hce, List.flatten_append, delWs_append, ← hdelchunk]
            simp [delWs]
        refine ⟨out, ?_, ?_, fun h => hni (hni2 h)⟩
        · rw [hloop, if_neg (by omega), ← hene]
          exact hout
        · rw [hdel, hdel2, List.append_assoc]
          congr 1
          rw [← delWs_append, take_drop_append_drop t start en (by omega)]

/-- C8 counterexample: on input `"ab. cd"` with `chunk_size = 4` and
`chunk_overlap = 0` (so re-concatenation with overlap regions removed is
plain concatenation), `chunk_text` emits `["ab.", "cd"]` — the trailing space
of the first window is trimmed away — and the normalized re-concatenation
`"ab.cd"` differs from the normalized input `"ab. cd"`. -/
theorem chunk_concat_not_normalized_eq :
    chunk_text "ab. cd".data 4 0 10 = some ["ab.".data, "cd".data] ∧
    preprocess_text ("ab.".data ++ "cd".data) ≠ preprocess_text "ab. cd".data := by
  exact ⟨by decide, by decide⟩

/-- C8 (amended): for every non-empty input, `chunk_size ≥ 1` and zero
overlap, `chunk_text` terminates (fuel `length + 1` suffices), no emitted
chunk is empty, and the re-concatenated chunks reconstruct the normalized
input up to the whitespace trimmed at chunk boundaries: deleting whitespace,
the concatenation equals the normalized input. -/
theorem chunk_text_zero_overlap_reconstruct (text : List Char) (csize : Nat)
    (hne : text ≠ []) (hcs : 1 ≤ csize) :
    ∃ chunks,
      chunk_text text csize 0 ((preprocess_text text).length + 1) = some chunks ∧
      delWs chunks.flatten = delWs (preprocess_text text) ∧
      ∀ c ∈ chunks, c ≠ [] := by
  obtain ⟨out, hout, hdel, hni⟩ :=
    chunkLoop_zero_overlap (preprocess_text text) csize hcs
      (preprocess_text text).length 0 [] (by omega)
  refine ⟨out, ?_, ?_, ?_⟩
  · unfold chunk_text
    rw [if_neg (by simpa using hne)]
    have h0 : ((0 : Nat) : Int) = (0 : Int) := rfl
    rw [h0] at hout
    exact hout
  · rw [hdel]
    simp [delWs]
  · exact hni (by intro c hc; simp at hc)

/-- Closed witness for the C8 amended theorem on the input `"ab. cd"` with
chunk size 4. -/
theorem chunk_text_zero_overlap_reconstruct_witness :
    ("ab. cd".data ≠ [] ∧ 1 ≤ 4) ∧
    (∃ chunks,
      chunk_text "ab. cd".data 4 0 ((preprocess_text "ab. cd".data).length + 1) =
        some chunks ∧
      delWs chunks.flatten = delWs (preprocess_text "ab. cd".data) ∧
      ∀ c ∈ chunks, c ≠ []) :=
  ⟨⟨by decide, by decide⟩,
    chunk_text_zero_overlap_reconstruct "ab. cd".data 4 (by decide) (by decide)⟩

end BookBuddy
